import Mathlib

/-!
Verification of the power-query-explorer extraction pipeline.

This file shallowly embeds the decoding and parsing routines of the
repository (src/src/app.js and the DataModel decoder shipped alongside
src/wasm/xpress9/xpress9_wasm.c) and settles the frozen claims about them.

Conventions of the embedding:
* JavaScript byte buffers (`Uint8Array`) are `List Nat` with every element
  `< 256` on well-formed input; `DataView` reads that would throw a
  `RangeError` out of bounds are modelled with `Option` (`none` = throw).
* JavaScript `Number` arithmetic on the values handled here stays below
  `2 ^ 53`, where IEEE doubles are exact, so it is modelled with `Nat`/`Int`.
* `BigInt` arithmetic is exact and is modelled with `Nat`.
* Fuel parameters are a termination device only: every loop modelled with
  fuel consumes at least one unit of its input per step, and each wrapper
  passes enough fuel for the loop to run to completion.
-/

deriving instance DecidableEq for Except

namespace PQX

/-- Little-endian 32-bit read, `readU32` in app.js
(`(b[o]|(b[o+1]<<8)|(b[o+2]<<16)|(b[o+3]<<24))>>>0`); for byte values < 256
the or-of-shifts is the weighted sum.  Out-of-range indices are read as 0
(app.js only calls it with 8 bytes available). -/
def readU32 (b : List Nat) (o : Nat) : Nat :=
  b.getD o 0 + b.getD (o + 1) 0 * 256 + b.getD (o + 2) 0 * 65536 +
    b.getD (o + 3) 0 * 16777216

/-- `DataView.getUint32(pos, true)`: little-endian, throws (`none`) when the
read crosses the end of the buffer. -/
def dvU32 (b : List Nat) (o : Nat) : Option Nat :=
  if o + 4 ≤ b.length then some (readU32 b o) else none

/-- `DataView.getBigUint64(pos, true)` (and the `Number(...)` conversion the
source applies to it), little-endian, `none` on an out-of-range read. -/
def dvU64 (b : List Nat) (o : Nat) : Option Nat :=
  if o + 8 ≤ b.length then
    some (readU32 b o + readU32 b (o + 4) * 4294967296)
  else none

/-- `DataView.getInt32(pos, true)`: little-endian signed 32-bit. -/
def dvI32 (b : List Nat) (o : Nat) : Option Int :=
  if o + 4 ≤ b.length then
    some (((readU32 b o + 2147483648 : Int) % 4294967296) - 2147483648)
  else none

/-- JavaScript `ToInt32` (the coercion applied to `<<` operands and results):
wrap into the signed 32-bit range `[-2147483648, 2147483648)`. -/
def jsInt32 (n : Int) : Int := (n + 2147483648) % 4294967296 - 2147483648

/-! ## Column index decode (readIdfMeta / readIdf / decodeRleBitPackedHybrid,
app.js lines 1112-1212) -/

/-- The metadata record produced by `readIdfMeta`.  `bitWidth` is
`(36 - aba5a) + iterator`, which JavaScript evaluates in exact signed
arithmetic, hence `Int`. -/
structure IdfMeta where
  minDataId : Nat
  countBitPacked : Nat
  bitWidth : Int
  rowCount : Nat
deriving DecidableEq, Repr

/-- One `(dataValue, repeatValue)` pair of the primary segment (`readIdf`). -/
structure PrimaryEntry where
  dataValue : Nat
  repeatValue : Nat
deriving DecidableEq, Repr

/-- The parsed value-index body produced by `readIdf`. -/
structure IdfData where
  primarySegment : List PrimaryEntry
  subSegment : List Nat
deriving DecidableEq, Repr

/-- `readIdfMeta(buf)`: fixed-offset field extraction.  The skipped tag and
counter fields advance `pos` exactly as the source does, so the reads land at
offsets 36 (`aba5a`), 40 (`iterator`), 87 (`minDataId`), 107 (`rowCount`) and
145 (`countBitPacked`).  A buffer too short for any read throws in the
source (`none` here). -/
def readIdfMeta (buf : List Nat) : Option IdfMeta := do
  let aba5a ← dvU32 buf 36
  let iterator ← dvU32 buf 40
  let minDataId ← dvU32 buf 87
  let rowCount ← dvU64 buf 107
  let countBitPacked ← dvU64 buf 145
  pure ⟨minDataId, countBitPacked, (36 - (aba5a : Int)) + iterator, rowCount⟩

/-- The `for (i < primarySize)` loop of `readIdf` reading `(u32, u32)` pairs;
recursion on the remaining count. -/
def readPrimaryPairs (buf : List Nat) : Nat → Nat → Option (List PrimaryEntry × Nat)
  | 0, pos => some ([], pos)
  | n + 1, pos => do
    let dataValue ← dvU32 buf pos
    let repeatValue ← dvU32 buf (pos + 4)
    let (rest, fin) ← readPrimaryPairs buf n (pos + 8)
    pure (⟨dataValue, repeatValue⟩ :: rest, fin)

/-- The `for (i < subSegSize)` loop of `readIdf` reading `u64` words. -/
def readSubWords (buf : List Nat) : Nat → Nat → Option (List Nat × Nat)
  | 0, pos => some ([], pos)
  | n + 1, pos => do
    let w ← dvU64 buf pos
    let (rest, fin) ← readSubWords buf n (pos + 8)
    pure (w :: rest, fin)

/-- `readIdf(buf)`: primary segment of pairs, then sub segment of 64-bit
words.  Throws (`none`) if the declared sizes overrun the buffer. -/
def readIdf (buf : List Nat) : Option IdfData := do
  let primarySize ← dvU64 buf 0
  let (primarySegment, pos) ← readPrimaryPairs buf primarySize 8
  let subSegSize ← dvU64 buf pos
  let (subSegment, _) ← readSubWords buf subSegSize (pos + 8)
  pure ⟨primarySegment, subSegment⟩

/-- Iteration count of the per-word loop `for (j = 0; j < 64 / bitWidth; j++)`
with integer `j` against the floating-point quotient: no iterations for
`w ≤ 0`, otherwise `⌈64 / w⌉`.  (For `w = 0` the source divides by zero and
loops forever; no theorem below is stated at that width.) -/
def numFieldsJS (w : Int) : Nat :=
  if w ≤ 0 then 0 else (((64 : Int) + w - 1) / w).toNat

/-- The mask `BigInt((1 << bitWidth) - 1)`: the JavaScript `<<` takes the
shift count mod 32 and wraps the result to `Int32`.  For `bitWidth % 32 = 31`
the wrap makes the mask negative; that case (never produced by the format,
whose widths stay far below 31) is clamped to 0 by `toNat` here and no
theorem is stated at such widths. -/
def jsMaskNat (w : Int) : Nat :=
  (jsInt32 (2 ^ (w % 32).toNat) - 1).toNat

/-- The inner loop of `decodeRleBitPackedHybrid` on one 64-bit word: emit
`Number(minId + (val & mask))` and shift `val >>= bitWidth`, `numFieldsJS`
times, so field `j` (least-significant first) is `(u >> (j*w)) & mask`. -/
def unpackWord (w : Int) (minDataId : Nat) (u : Nat) : List Nat :=
  (List.range (numFieldsJS w)).map
    (fun j => minDataId + ((u / 2 ^ (j * w.toNat)) &&& jsMaskNat w))

/-- The `bitpackedValues` array of `decodeRleBitPackedHybrid`: empty unless
`countBitPacked > 0` and the sub segment is non-empty; a single all-zero word
is the run-length shortcut `fill(minDataId)`; otherwise every word is
unpacked in order. -/
def bitpackedOf (idf : IdfData) (meta : IdfMeta) : List Nat :=
  if meta.countBitPacked > 0 ∧ idf.subSegment ≠ [] then
    if idf.subSegment = [0] then
      List.replicate meta.countBitPacked meta.minDataId
    else
      (idf.subSegment.map (unpackWord meta.bitWidth meta.minDataId)).flatten
  else []

/-- The sentinel-entry loop
`for (i = 0; i < count && bpOffset + i < bitpackedValues.length; i++)
  vector.push(bitpackedValues[bpOffset + i])`,
modelled index-by-index; the fuel equals the remaining iteration budget
(`count - i` never exceeds it). -/
def sentinelRunGo (bpv : List Nat) (off count : Nat) : Nat → Nat → List Nat
  | _, 0 => []
  | i, fuel + 1 =>
    if i < count ∧ off + i < bpv.length then
      bpv.getD (off + i) 0 :: sentinelRunGo bpv off count (i + 1) fuel
    else []

/-- The ids a sentinel entry copies from the bit-packed stream. -/
def sentinelRun (bpv : List Nat) (off count : Nat) : List Nat :=
  sentinelRunGo bpv off count 0 count

/-- The primary-segment expansion loop of `decodeRleBitPackedHybrid`: a
running cursor `bpOffset`, the sentinel test
`(entry.dataValue + bpOffset) === 0xFFFFFFFF`, sentinel entries copy from the
bit-packed stream and advance the cursor by the full repeat count, literal
entries repeat their value. -/
def expandPrimary (bpv : List Nat) : List PrimaryEntry → Nat → List Nat
  | [], _ => []
  | e :: rest, bpOffset =>
    if e.dataValue + bpOffset = 4294967295 then
      sentinelRun bpv bpOffset e.repeatValue ++
        expandPrimary bpv rest (bpOffset + e.repeatValue)
    else
      List.replicate e.repeatValue e.dataValue ++ expandPrimary bpv rest bpOffset

/-- `decodeRleBitPackedHybrid(idfData, meta)` (app.js lines 1171-1212). -/
def decodeRleBitPackedHybrid (idf : IdfData) (meta : IdfMeta) : List Nat :=
  expandPrimary (bitpackedOf idf meta) idf.primarySegment 0

/-- Modelled from the spec (§4.5 of spec.md): "Bit-packed words are unpacked
MSB-first in `64/bitWidth`-wide fields, each field added to the
minimum-dictionary-id" — the first emitted id comes from the MOST significant
field.  Stated only to compare with the source's `unpackWord`. -/
def specUnpackWordMSB (w minDataId u : Nat) : List Nat :=
  (List.range (64 / w)).map
    (fun j => minDataId + u / 2 ^ (64 - (j + 1) * w) % 2 ^ w)

/-! ### Characterization lemmas shared by the index-decode claims -/

theorem sentinelRunGo_eq (bpv : List Nat) (off count : Nat) :
    ∀ fuel i, count ≤ i + fuel →
      sentinelRunGo bpv off count i fuel = (bpv.drop (off + i)).take (count - i) := by
  intro fuel
  induction fuel with
  | zero =>
    intro i h
    have : count - i = 0 := by omega
    simp [sentinelRunGo, this]
  | succ n ih =>
    intro i h
    by_cases h1 : i < count ∧ off + i < bpv.length
    · have hlt : off + i < bpv.length := h1.2
      have hdrop : bpv.drop (off + i) = bpv[off + i] :: bpv.drop (off + i + 1) :=
        List.drop_eq_getElem_cons hlt
      have hsub : count - i = (count - (i + 1)) + 1 := by omega
      have hget : bpv.getD (off + i) 0 = bpv[off + i] := by
        simp [List.getD_eq_getElem?_getD, List.getElem?_eq_getElem hlt]
      rw [sentinelRunGo, if_pos h1, ih (i + 1) (by omega), hdrop, hsub, List.take_succ_cons,
        hget]
      have : off + (i + 1) = off + i + 1 := by omega
      rw [this]
    · rw [sentinelRunGo, if_neg h1]
      rcases Decidable.not_and_iff_or_not.mp h1 with h2 | h2
      · have : count - i = 0 := by omega
        simp [this]
      · have : bpv.drop (off + i) = [] := List.drop_eq_nil_of_le (by omega)
        simp [this]

theorem sentinelRun_eq (bpv : List Nat) (off count : Nat) :
    sentinelRun bpv off count = (bpv.drop off).take count := by
  simpa using sentinelRunGo_eq bpv off count count 0 (by omega)

theorem expandPrimary_length_le (bpv : List Nat) :
    ∀ (l : List PrimaryEntry) (off : Nat),
      (expandPrimary bpv l off).length ≤ (l.map (fun e => e.repeatValue)).sum := by
  intro l
  induction l with
  | nil => intro off; simp [expandPrimary]
  | cons e rest ih =>
    intro off
    by_cases h : e.dataValue + off = 4294967295
    · rw [expandPrimary, if_pos h]
      have h1 : (sentinelRun bpv off e.repeatValue).length ≤ e.repeatValue := by
        rw [sentinelRun_eq]; simp [List.length_take]
      calc (sentinelRun bpv off e.repeatValue ++
              expandPrimary bpv rest (off + e.repeatValue)).length
          = (sentinelRun bpv off e.repeatValue).length +
              (expandPrimary bpv rest (off + e.repeatValue)).length := by simp
        _ ≤ e.repeatValue + (rest.map (fun e => e.repeatValue)).sum :=
            Nat.add_le_add h1 (ih _)
        _ = ((e :: rest).map (fun e => e.repeatValue)).sum := by simp
    · rw [expandPrimary, if_neg h]
      have := ih off
      simp only [List.length_append, List.length_replicate, List.map_cons, List.sum_cons]
      omega

theorem jsMaskNat_cast (w : Nat) (h1 : 1 ≤ w) (h2 : w ≤ 30) :
    jsMaskNat (w : Int) = 2 ^ w - 1 := by
  have hw32 : (w : Int) % 32 = (w : Int) := by omega
  have hcast : ((w : Int)).toNat = w := by omega
  have hpow : (2 : Int) ^ w = ((2 ^ w : Nat) : Int) := by push_cast; ring
  have hle : (2 : Nat) ^ w ≤ 2 ^ 30 := Nat.pow_le_pow_right (by norm_num) h2
  have h1p : (1 : Nat) ≤ 2 ^ w := Nat.one_le_two_pow
  norm_num at hle
  unfold jsMaskNat jsInt32
  rw [hw32, hcast, hpow]
  omega

theorem unpackWord_length (w : Int) (minDataId u : Nat) :
    (unpackWord w minDataId u).length = numFieldsJS w := by
  simp [unpackWord]

/-- C1: with `minDataId = 100`, primary segment `[(0xFFFFFFFF,3),(7,2)]` and a
bit-packed stream whose ids start `100, 101, 102`, the decoder's sentinel
entry (value `0xFFFFFFFF` adjusted by the running cursor, here 0) consumes
the next 3 bit-packed ids and the literal entry repeats 7 twice, so the
result is exactly `[100, 101, 102, 7, 7]`. -/
theorem decodeRleBitPackedHybrid_sentinel_then_literal_c1 :
    ∀ (idf : IdfData) (meta : IdfMeta) (rest : List Nat),
      meta.minDataId = 100 →
      idf.primarySegment = [⟨4294967295, 3⟩, ⟨7, 2⟩] →
      bitpackedOf idf meta = 100 :: 101 :: 102 :: rest →
      decodeRleBitPackedHybrid idf meta = [100, 101, 102, 7, 7] := by
  intro idf meta rest _ hprim hbpv
  unfold decodeRleBitPackedHybrid
  rw [hprim, hbpv]
  rw [expandPrimary, if_pos (by norm_num), sentinelRun_eq]
  rw [expandPrimary, if_neg (by norm_num), expandPrimary]
  simp

/-- Concrete instance of the C1 scenario: one 64-bit sub-segment word
`1·2^16 + 2·2^32` at bit width 16 unpacks (least-significant field first) to
ids `100, 101, 102, 100`, and the full decode yields `[100,101,102,7,7]`. -/
def c1IdfExample : IdfData := ⟨[⟨4294967295, 3⟩, ⟨7, 2⟩], [8590000128]⟩

/-- Metadata for the C1 concrete instance. -/
def c1MetaExample : IdfMeta := ⟨100, 3, 16, 0⟩

theorem decodeRleBitPackedHybrid_sentinel_then_literal_c1_witness :
    bitpackedOf c1IdfExample c1MetaExample = 100 :: 101 :: 102 :: [100] ∧
    decodeRleBitPackedHybrid c1IdfExample c1MetaExample = [100, 101, 102, 7, 7] :=
  ⟨by decide,
   decodeRleBitPackedHybrid_sentinel_then_literal_c1 c1IdfExample c1MetaExample [100]
     rfl rfl (by decide)⟩

/-- C4 counterexample: the decoder unpacks bit-packed words LSB-first, not
MSB-first.  At bit width 8, word `1`, minimum id 0, the source emits
`[1,0,0,0,0,0,0,0]` (first id from the LEAST significant field), while the
spec's MSB-first unpacking would emit `[0,0,0,0,0,0,0,1]`. -/
theorem decodeRleBitPackedHybrid_msb_counterexample_c4 :
    decodeRleBitPackedHybrid ⟨[⟨4294967295, 8⟩], [1]⟩ ⟨0, 8, 8, 0⟩ =
        [1, 0, 0, 0, 0, 0, 0, 0] ∧
    specUnpackWordMSB 8 0 1 = [0, 0, 0, 0, 0, 0, 0, 1] ∧
    decodeRleBitPackedHybrid ⟨[⟨4294967295, 8⟩], [1]⟩ ⟨0, 8, 8, 0⟩ ≠
        specUnpackWordMSB 8 0 1 :=
  ⟨by decide, by decide, by decide⟩

/-- C4 (amended): for bit widths `1 ≤ w ≤ 30` (where the 32-bit mask
computation `(1 << w) - 1` is exact), a non-zero sub-segment word `u` is
unpacked LSB-first into `⌈64/w⌉` fields of `w` bits — field `j`, counted from
the least significant end, yields `minDataId + (u >> (j*w)) mod 2^w` — which
is what the decoder returns through a sentinel entry covering the word. -/
theorem decodeRleBitPackedHybrid_unpacks_lsb_first_c4 :
    ∀ (minId k rc u w : Nat), 1 ≤ w → w ≤ 30 → u ≠ 0 → 0 < k →
      decodeRleBitPackedHybrid ⟨[⟨4294967295, numFieldsJS (w : Int)⟩], [u]⟩
          ⟨minId, k, (w : Int), rc⟩ =
        (List.range (numFieldsJS (w : Int))).map
          (fun j => minId + u / 2 ^ (j * w) % 2 ^ w) := by
  intro minId k rc u w h1 h2 hu hk
  have hbpv : bitpackedOf ⟨[⟨4294967295, numFieldsJS (w : Int)⟩], [u]⟩
      ⟨minId, k, (w : Int), rc⟩ = unpackWord (w : Int) minId u := by
    unfold bitpackedOf
    rw [if_pos ⟨hk, by simp⟩, if_neg (by simp [hu])]
    simp
  unfold decodeRleBitPackedHybrid
  rw [hbpv]
  rw [expandPrimary, if_pos (by norm_num), sentinelRun_eq, expandPrimary]
  rw [List.drop_zero, List.take_of_length_le (unpackWord_length _ _ _).le, List.append_nil]
  unfold unpackWord
  refine List.map_congr_left (fun j _ => ?_)
  rw [jsMaskNat_cast w h1 h2, Nat.and_pow_two_sub_one_eq_mod]
  have : ((w : Int)).toNat = w := by omega
  rw [this]

theorem decodeRleBitPackedHybrid_unpacks_lsb_first_c4_witness :
    decodeRleBitPackedHybrid ⟨[⟨4294967295, numFieldsJS 8⟩], [1]⟩ ⟨0, 8, 8, 0⟩ =
      (List.range (numFieldsJS 8)).map (fun j => 0 + 1 / 2 ^ (j * 8) % 2 ^ 8) :=
  decodeRleBitPackedHybrid_unpacks_lsb_first_c4 0 8 0 1 8
    (by decide) (by decide) (by decide) (by decide)

/-- C10: a sentinel entry whose repeat count exceeds the bit-packed ids left
after the cursor appends only the ids that exist — the copy loop is exactly
`take count` of `drop cursor`, so no out-of-bounds id is ever read — while
the cursor still advances by the full repeat count; hence the decoded
vector's length is at most (and can be strictly less than) the sum of all
repeat counts. -/
theorem decodeRleBitPackedHybrid_truncating_sentinel_c10 :
    (∀ (bpv : List Nat) (off count : Nat),
        sentinelRun bpv off count = (bpv.drop off).take count) ∧
    (∀ (bpv : List Nat) (e : PrimaryEntry) (rest : List PrimaryEntry) (off : Nat),
        e.dataValue + off = 4294967295 →
        expandPrimary bpv (e :: rest) off =
          (bpv.drop off).take e.repeatValue ++
            expandPrimary bpv rest (off + e.repeatValue)) ∧
    (∀ (idf : IdfData) (meta : IdfMeta),
        (decodeRleBitPackedHybrid idf meta).length ≤
          (idf.primarySegment.map (fun e => e.repeatValue)).sum) ∧
    (∃ (idf : IdfData) (meta : IdfMeta),
        (decodeRleBitPackedHybrid idf meta).length <
          (idf.primarySegment.map (fun e => e.repeatValue)).sum) := by
  refine ⟨sentinelRun_eq, ?_, ?_, ?_⟩
  · intro bpv e rest off h
    rw [expandPrimary, if_pos h, sentinelRun_eq]
  · intro idf meta
    exact expandPrimary_length_le _ _ _
  · exact ⟨⟨[⟨4294967295, 5⟩], [1]⟩, ⟨0, 3, 16, 0⟩, by decide⟩

theorem decodeRleBitPackedHybrid_truncating_sentinel_c10_witness :
    expandPrimary [5, 6] [⟨4294967295, 9⟩] 0 =
      ([5, 6].drop 0).take 9 ++ expandPrimary [5, 6] ([] : List PrimaryEntry) 9 :=
  decodeRleBitPackedHybrid_truncating_sentinel_c10.2.1 [5, 6] ⟨4294967295, 9⟩ [] 0
    (by decide)

/-! ## Minimal SQLite reader: varints and record decoding
(`readVarint` / `parseRecord` inside `readMCodeFromSQLite`, DataModel decoder) -/

/-- A decoded SQLite record value.  Serial type 7 (IEEE-754 double) keeps its
raw big-endian payload bytes, and text keeps its raw UTF-8 bytes (the
`TextDecoder` call is not modelled); no claim inspects either. -/
inductive SQLiteVal where
  | vnull
  | vint (n : Int)
  | vfloat (bytes : List Nat)
  | vblob (bytes : List Nat)
  | vtext (bytes : List Nat)
deriving DecidableEq, Repr

/-- The loop of `readVarint`: up to 8 continuation bytes
(`result = result*128 + (b & 0x7f)`, stop when the high bit is clear), then a
ninth byte contributing all 8 bits.  For bytes `< 256`, `b & 0x7f = b % 128`
and `b & 0x80` is clear iff `b < 128`.  Out-of-range reads (malformed
records only) are taken as 0. -/
def readVarintAux (data : List Nat) (pos : Nat) : Nat → Nat → Nat × Nat
  | acc, 0 => (acc * 256 + data.getD (pos + 8) 0, 9)
  | acc, fuel + 1 =>
    let i := 8 - (fuel + 1)
    let b := data.getD (pos + i) 0
    let acc2 := acc * 128 + b % 128
    if b < 128 then (acc2, i + 1) else readVarintAux data pos acc2 fuel

/-- `readVarint(data, pos)`: returns `(v, n)` — the decoded value and the
number of bytes consumed. -/
def readVarint (data : List Nat) (pos : Nat) : Nat × Nat :=
  readVarintAux data pos 0 8

/-- The `while (pos < headerLen)` serial-type loop of `parseRecord`; each
varint consumes at least one byte, so `headerLen` steps of fuel suffice. -/
def parseTypesGo (payload : List Nat) (headerLen : Nat) : Nat → Nat → List Nat
  | _, 0 => []
  | pos, fuel + 1 =>
    if pos < headerLen then
      let (st, sn) := readVarint payload pos
      st :: parseTypesGo payload headerLen (pos + sn) fuel
    else []

/-- `lens = [0, 1, 2, 3, 4, 6, 8]` indexed by serial types 1..6. -/
def serialIntLen (st : Nat) : Nat := [0, 1, 2, 3, 4, 6, 8].getD st 0

/-- The big-endian accumulation `val = val * 256 + payload[dPos + i]`.
(For 7- and 8-byte values above `2^53` the source accumulates in IEEE
doubles and rounds; modelled exactly here, and no theorem is stated at such
values.) -/
def readBE (data : List Nat) (pos len : Nat) : Nat :=
  (List.range len).foldl (fun val i => val * 256 + data.getD (pos + i) 0) 0

/-- The subtrahend of the sign-extension step
`if (payload[dPos] & 0x80) val -= (1 << (len * 8))`: the JavaScript `<<`
reduces its shift count mod 32, so for `len ∈ {4, 6, 8}` the subtrahend is
`2^0 = 1`, `2^16`, `2^0 = 1` instead of `2^32`, `2^48`, `2^64`. -/
def signExtendSub (len : Nat) : Int := 2 ^ ((len * 8) % 32)

/-- The value loop of `parseRecord`, one serial type at a time, threading the
data cursor `dPos`; branch structure and order exactly as in the source. -/
def decodeSerialValues (payload : List Nat) : List Nat → Nat → List SQLiteVal
  | [], _ => []
  | st :: rest, dPos =>
    if st = 0 then SQLiteVal.vnull :: decodeSerialValues payload rest dPos
    else if 1 ≤ st ∧ st ≤ 6 then
      let len := serialIntLen st
      let raw := readBE payload dPos len
      let v : Int :=
        if 0 < len ∧ 128 ≤ payload.getD dPos 0 then (raw : Int) - signExtendSub len
        else (raw : Int)
      SQLiteVal.vint v :: decodeSerialValues payload rest (dPos + len)
    else if st = 7 then
      SQLiteVal.vfloat ((payload.drop dPos).take 8) :: decodeSerialValues payload rest (dPos + 8)
    else if st = 8 then SQLiteVal.vint 0 :: decodeSerialValues payload rest dPos
    else if st = 9 then SQLiteVal.vint 1 :: decodeSerialValues payload rest dPos
    else if 12 ≤ st ∧ st % 2 = 0 then
      let len := (st - 12) / 2
      SQLiteVal.vblob ((payload.drop dPos).take len) ::
        decodeSerialValues payload rest (dPos + len)
    else if 13 ≤ st ∧ st % 2 = 1 then
      let len := (st - 13) / 2
      SQLiteVal.vtext ((payload.drop dPos).take len) ::
        decodeSerialValues payload rest (dPos + len)
    else SQLiteVal.vnull :: decodeSerialValues payload rest dPos

/-- `parseRecord(payload)`: varint header length, serial-type list, then the
typed values starting at offset `headerLen`. -/
def parseRecord (payload : List Nat) : List SQLiteVal :=
  let (headerLen, hb) := readVarint payload 0
  let types := parseTypesGo payload headerLen hb headerLen
  decodeSerialValues payload types headerLen

/-- C3 (code bug): serial types 1-3 sign-extend correctly, but for serial
type 4 (and 5, 6) the subtrahend `1 << (len * 8)` wraps at 32 bits, so the
4-byte payload FF FF FF FF decodes to 4294967294 instead of the -1 required
by the record format and by the code's own "Sign extend for negative values"
comment (the 6-byte all-FF payload similarly loses only `2^16`). -/
theorem parseRecord_sign_extension_bug_c3 :
    parseRecord [2, 1, 255] = [SQLiteVal.vint (-1)] ∧
    parseRecord [2, 2, 255, 255] = [SQLiteVal.vint (-1)] ∧
    parseRecord [2, 3, 255, 255, 255] = [SQLiteVal.vint (-1)] ∧
    parseRecord [2, 4, 255, 255, 255, 255] = [SQLiteVal.vint 4294967294] ∧
    parseRecord [2, 4, 255, 255, 255, 255] ≠ [SQLiteVal.vint (-1)] ∧
    parseRecord [2, 5, 255, 255, 255, 255, 255, 255] =
      [SQLiteVal.vint 281474976645119] := by
  refine ⟨by decide, by decide, by decide, by decide, by decide, by decide⟩

/-! ## MS-QDEFF DataMashup envelope (extractFromDataMashup / findPK) -/

/-- A recovered query, as produced by the parsers in app.js. -/
structure Query where
  name : String
  code : String
  fileName : String
  dependencies : List String
  externalRefs : List String
deriving DecidableEq, Repr

/-- Does the local-file-header signature 50 4B 03 04 start at index `i`? -/
def pkSigAt (b : List Nat) (i : Nat) : Bool :=
  b.getD i 0 == 80 && b.getD (i + 1) 0 == 75 && b.getD (i + 2) 0 == 3 &&
    b.getD (i + 3) 0 == 4

/-- The scan loop of `findPK`: `for (i = 0; i < b.length - 4; i++)`.  Note
the loop bound: an occurrence starting exactly at `b.length - 4` (the final
four bytes) is never examined. -/
def findPKGo (b : List Nat) : Nat → Nat → Option Nat
  | _, 0 => none
  | i, fuel + 1 =>
    if i < b.length - 4 then
      if pkSigAt b i then some i else findPKGo b (i + 1) fuel
    else none

/-- `findPK(b)`: index of the first signature found by the scan, `none` for
the JavaScript return value -1. -/
def findPK (b : List Nat) : Option Nat := findPKGo b 0 b.length

/-- `extractFromDataMashup(buf, fn)` (app.js lines 120-130), with the inner
archive reader `extractMCodeFromZip ∘ JSZip.loadAsync` abstracted as the
parameter `zipQ` (`Except.error` models the promise rejecting / throwing;
both call sites sit in `try { } catch { }`, modelled by the match arms that
fall back to the empty list).  The structured branch is attempted only when
`version = 0 ∧ 0 < pkgLen ∧ pkgLen ≤ length - 8`; the signature-scan
fallback runs whenever the structured branch produced no queries. -/
def extractFromDataMashup (zipQ : List Nat → Except Unit (List Query))
    (b : List Nat) : List Query :=
  if b.length < 8 then []
  else
    let v := readU32 b 0
    let n := readU32 b 4
    let q1 : List Query :=
      if v = 0 ∧ 0 < n ∧ n ≤ b.length - 8 then
        match zipQ ((b.drop 8).take n) with
        | .ok qs => qs
        | .error _ => []
      else []
    if q1 = [] then
      match findPK b with
      | some s =>
        match zipQ (b.drop s) with
        | .ok qs => qs
        | .error _ => []
      | none => []
    else q1

theorem findPKGo_finds (b : List Nat) :
    ∀ (fuel j i : Nat), j ≤ i → i < b.length - 4 → i < j + fuel →
      pkSigAt b i = true →
      ∃ s, findPKGo b j fuel = some s ∧ j ≤ s ∧ s ≤ i ∧ pkSigAt b s = true := by
  intro fuel
  induction fuel with
  | zero =>
    intro j i hji _ hlt _
    omega
  | succ f ih =>
    intro j i hji hrange hlt hsig
    rw [findPKGo, if_pos (by omega : j < b.length - 4)]
    by_cases hj : pkSigAt b j = true
    · rw [if_pos hj]
      exact ⟨j, rfl, le_refl j, hji, hj⟩
    · rw [if_neg hj]
      have hne : j ≠ i := fun he => hj (he ▸ hsig)
      obtain ⟨s, hs, hjs, hsi, hsig2⟩ := ih (j + 1) i (by omega) hrange (by omega) hsig
      exact ⟨s, hs, by omega, hsi, hsig2⟩

/-- C6: when the envelope length field exceeds the remaining buffer but the
buffer holds a valid nested archive further in — its local-file-header
signature at offset `i` with the archive's content after it (`i + 4 <
length`; an archive that contains any file extends well past the 4
signature bytes, a bare local file header alone being 30 bytes) —
`extractFromDataMashup` skips the structured parse, the linear scan finds
the first signature match `s`, and the function returns exactly the query
source files the archive reader yields at `s` (the empty list when the
reader throws); and for every input buffer it returns a (possibly empty)
query list rather than throwing — archive-reader failures are swallowed. -/
theorem extractFromDataMashup_pk_fallback_c6 :
    (∀ (zipQ : List Nat → Except Unit (List Query)) (b : List Nat) (i : Nat),
        8 ≤ b.length →
        readU32 b 0 = 0 →
        b.length - 8 < readU32 b 4 →
        pkSigAt b i = true →
        i + 4 < b.length →
        ∃ s, findPK b = some s ∧ s ≤ i ∧ pkSigAt b s = true ∧
          extractFromDataMashup zipQ b =
            (match zipQ (b.drop s) with
             | .ok qs => qs
             | .error _ => [])) ∧
    (∀ b : List Nat, extractFromDataMashup (fun _ => .error ()) b = []) := by
  constructor
  · intro zipQ b i hlen hv hn hsig hroom
    obtain ⟨s, hfind, _, hsi, hsigs⟩ :=
      findPKGo_finds b b.length 0 i (by omega) (by omega) (by omega) hsig
    have hpk : findPK b = some s := hfind
    have h8 : ¬ b.length < 8 := by omega
    have hq1 : ¬ (readU32 b 0 = 0 ∧ 0 < readU32 b 4 ∧ readU32 b 4 ≤ b.length - 8) := by
      omega
    refine ⟨s, hpk, hsi, hsigs, ?_⟩
    simp [extractFromDataMashup, h8, hq1, hpk]
  · intro b
    unfold extractFromDataMashup
    by_cases hlen : b.length < 8
    · rw [if_pos hlen]
    · rw [if_neg hlen]
      rcases h : findPK b with _ | s <;>
        by_cases hc : readU32 b 0 = 0 ∧ 0 < readU32 b 4 ∧ readU32 b 4 ≤ b.length - 8 <;>
        simp [hc, h]

/-- Concrete query used in the C6 witness. -/
def c6Query : Query := ⟨"Q", "let x = 1 in x", "f", [], []⟩

/-- Concrete 13-byte buffer for the C6 witness: version 0, length field
0xFFFFFFFF (exceeds the 5 remaining bytes), the archive signature at offset
8 with archive content after it. -/
def c6BufOk : List Nat := [0, 0, 0, 0, 255, 255, 255, 255, 80, 75, 3, 4, 0]

theorem extractFromDataMashup_pk_fallback_c6_witness :
    extractFromDataMashup (fun _ => .ok [c6Query]) c6BufOk = [c6Query] := by
  obtain ⟨s, hfind, hle, hsig, hres⟩ :=
    extractFromDataMashup_pk_fallback_c6.1 (fun _ => .ok [c6Query]) c6BufOk 8
      (by decide) (by decide) (by decide) (by decide) (by decide)
  exact hres

/-! ## XPress9 decompression framing (decompressXpress9, DataModel decoder)

The decoder's observable session behaviour is modelled as a trace of the
WASM calls it makes: `xpress9_free`, `xpress9_init`, and
`xpress9_decompress` (the latter tagged with the index of the thread group
being processed; 0 in single-threaded mode). -/

/-- One WASM decoder call. -/
inductive XpEvent where
  | sessionFree
  | sessionInit
  | blockDecompress (group : Nat)
deriving DecidableEq, Repr

/-- `decompressBlock`: reads the 8-byte header at `offset`; on implausible
sizes (`compSize = 0`, `uncompSize = 0`, or the compressed bytes overrunning
the buffer) it returns `offset + 8` without calling `xpress9_decompress`
(second component `false`); otherwise it consumes the block and the call is
made (`true`). -/
def decompressBlockOffset (buf : List Nat) (offset : Nat) : Nat × Bool :=
  let uncompSize := readU32 buf offset
  let compSize := readU32 buf (offset + 4)
  if compSize = 0 ∨ uncompSize = 0 ∨ buf.length < offset + 8 + compSize then
    (offset + 8, false)
  else (offset + 8 + compSize, true)

/-- The per-group block loop
`for (b = 0; b < nBlocks && offset + 8 <= buf.length; b++)`, emitting one
`blockDecompress g` event per actual `xpress9_decompress` call and
returning the final offset. -/
def blockLoop (buf : List Nat) (g : Nat) : Nat → Nat → List XpEvent × Nat
  | 0, offset => ([], offset)
  | nBlocks + 1, offset =>
    if offset + 8 ≤ buf.length then
      match decompressBlockOffset buf offset with
      | (o2, called) =>
        match blockLoop buf g nBlocks o2 with
        | (evs, fin) =>
          ((if called then [XpEvent.blockDecompress g] else []) ++ evs, fin)
    else ([], offset)

/-- The thread-group loop of the multi-threaded branch: for each group,
`xpress9_free` then `xpress9_init` (a fresh session) before its blocks. -/
def groupLoop (buf : List Nat) : List Nat → Nat → Nat → List XpEvent × Nat
  | [], _, offset => ([], offset)
  | n :: rest, g, offset =>
    match blockLoop buf g n offset with
    | (evs, o2) =>
      match groupLoop buf rest (g + 1) o2 with
      | (evs2, fin) =>
        (XpEvent.sessionFree :: XpEvent.sessionInit :: (evs ++ evs2), fin)

/-- The UTF-16LE signature read: characters from the first 102 bytes until a
zero character (indices past the buffer read as 0 in JavaScript via
`undefined | x`, terminating the loop). -/
def sigCharsGo (buf : List Nat) : Nat → Nat → List Nat
  | _, 0 => []
  | i, fuel + 1 =>
    if i < 102 then
      let ch := buf.getD i 0 + buf.getD (i + 1) 0 * 256
      if ch = 0 then [] else ch :: sigCharsGo buf (i + 2) fuel
    else []

/-- The signature character codes of a DataModel buffer. -/
def sigChars (buf : List Nat) : List Nat := sigCharsGo buf 0 51

/-- `String.includes` on code-unit lists: does `needle` occur contiguously
inside `hay`? -/
def containsSub : List Nat → List Nat → Bool
  | [], needle => needle.isEmpty
  | h :: t, needle => needle.isPrefixOf (h :: t) || containsSub t needle

/-- The code units of `'multithreaded'`. -/
def mtSigCodes : List Nat :=
  [109, 117, 108, 116, 105, 116, 104, 114, 101, 97, 100, 101, 100]

/-- The single-threaded block loop (`while (offset + 8 <= buf.length)` with
the `offset === prevOffset` break); every iteration advances the offset by
at least 8, so `buf.length` steps of fuel suffice. -/
def singleLoop (buf : List Nat) : Nat → Nat → List XpEvent
  | 0, _ => []
  | fuel + 1, offset =>
    if offset + 8 ≤ buf.length then
      match decompressBlockOffset buf offset with
      | (o2, called) =>
        if o2 = offset then (if called then [XpEvent.blockDecompress 0] else [])
        else
          (if called then [XpEvent.blockDecompress 0] else []) ++
            singleLoop buf fuel o2
    else []

/-- The WASM-call trace of `decompressXpress9(dataModelBuf)`.  Multi-threaded
mode: five u64 counters at offsets 102..141, thread groups = prefix threads
(each with `prefixChunks` blocks) followed by main threads (each with
`mainChunks` blocks), a fresh session (`free`, `init`) at the start of every
group, and a final `xpress9_free`.  Single-threaded mode: one `init`, the
sequential block loop, and the final `free`.  `none` models the DataView
reads of the counters throwing on a truncated buffer. -/
def decompressXpress9Trace (buf : List Nat) : Option (List XpEvent) :=
  if containsSub (sigChars buf) mtSigCodes then do
    let mainChunks ← dvU64 buf 102
    let prefixChunks ← dvU64 buf 110
    let prefixThreads ← dvU64 buf 118
    let mainThreads ← dvU64 buf 126
    let _chunkSize ← dvU64 buf 134
    let groups := List.replicate prefixThreads prefixChunks ++
      List.replicate mainThreads mainChunks
    pure ((groupLoop buf groups 0 142).1 ++ [XpEvent.sessionFree])
  else
    some (XpEvent.sessionInit :: singleLoop buf buf.length 102 ++ [XpEvent.sessionFree])

theorem blockLoop_all_block (buf : List Nat) (g : Nat) :
    ∀ (n offset : Nat), ∀ ev ∈ (blockLoop buf g n offset).1,
      ev = XpEvent.blockDecompress g := by
  intro n
  induction n with
  | zero => intro offset ev h; simp [blockLoop] at h
  | succ m ih =>
    intro offset ev h
    rw [blockLoop] at h
    by_cases hb : offset + 8 ≤ buf.length
    · rw [if_pos hb] at h
      rcases hd : decompressBlockOffset buf offset with ⟨o2, called⟩
      rw [hd] at h
      dsimp only at h
      rcases hbl : blockLoop buf g m o2 with ⟨evs, fin⟩
      rw [hbl] at h
      dsimp only at h
      simp only [List.mem_append] at h
      rcases h with h | h
      · rcases called with _ | _ <;> simp at h
        exact h
      · have := ih o2 ev
        rw [hbl] at this
        exact this h
    · rw [if_neg hb] at h
      simp at h

theorem blockLoop_count_zero (buf : List Nat) (g n offset : Nat)
    (e : XpEvent) (he : ∀ gg, e ≠ XpEvent.blockDecompress gg) :
    ((blockLoop buf g n offset).1).count e = 0 := by
  rw [List.count_eq_zero]
  intro h
  exact he g (blockLoop_all_block buf g n offset e h)

theorem groupLoop_get_block (buf : List Nat) :
    ∀ (groups : List Nat) (g offset i gg : Nat),
      ((groupLoop buf groups g offset).1).get? i =
          some (XpEvent.blockDecompress gg) →
      g ≤ gg ∧
      (((groupLoop buf groups g offset).1).take i).count XpEvent.sessionInit =
          gg + 1 - g ∧
      (((groupLoop buf groups g offset).1).take i).count XpEvent.sessionFree =
          gg + 1 - g := by
  intro groups
  induction groups with
  | nil => intro g offset i gg h; simp [groupLoop] at h
  | cons n rest ih =>
    intro g offset i gg h
    rcases hbl : blockLoop buf g n offset with ⟨bevs, o2⟩
    rcases hgl : groupLoop buf rest (g + 1) o2 with ⟨revs, fin⟩
    have hevs : (groupLoop buf (n :: rest) g offset).1 =
        XpEvent.sessionFree :: XpEvent.sessionInit :: (bevs ++ revs) := by
      rw [groupLoop, hbl]
      dsimp only
      rw [hgl]
    rw [hevs] at h ⊢
    match i with
    | 0 => simp at h
    | 1 => simp at h
    | k + 2 =>
      simp only [List.get?_cons_succ] at h
      have hbevs_block : ∀ ev ∈ bevs, ev = XpEvent.blockDecompress g := by
        intro ev hmem
        have := blockLoop_all_block buf g n offset ev
        rw [hbl] at this
        exact this hmem
      have hbevs_cnt_init : ∀ m, (bevs.take m).count XpEvent.sessionInit = 0 := by
        intro m
        rw [List.count_eq_zero]
        intro hmem
        exact absurd (hbevs_block _ (List.mem_of_mem_take hmem)) (by simp)
      have hbevs_cnt_free : ∀ m, (bevs.take m).count XpEvent.sessionFree = 0 := by
        intro m
        rw [List.count_eq_zero]
        intro hmem
        exact absurd (hbevs_block _ (List.mem_of_mem_take hmem)) (by simp)
      by_cases hk : k < bevs.length
      · rw [List.get?_append hk] at h
        have hgg : gg = g := by
          have := hbevs_block _ (List.get?_mem h)
          injection this.symm with h2
          omega
        subst hgg
        have htk : (XpEvent.sessionFree :: XpEvent.sessionInit ::
            (bevs ++ revs)).take (k + 2) =
            XpEvent.sessionFree :: XpEvent.sessionInit :: (bevs ++ revs).take k := by
          simp [List.take_succ_cons]
        rw [htk, List.take_append_of_le_length (by omega)]
        refine ⟨le_refl _, ?_, ?_⟩ <;>
          simp [List.count_cons, hbevs_cnt_init k, hbevs_cnt_free k]
      · rw [List.get?_append_right (by omega)] at h
        have hih := ih (g + 1) o2 (k - bevs.length) gg
        rw [hgl] at hih
        have ⟨hle, hci, hcf⟩ := hih h
        have htk : (XpEvent.sessionFree :: XpEvent.sessionInit ::
            (bevs ++ revs)).take (k + 2) =
            XpEvent.sessionFree :: XpEvent.sessionInit ::
              (bevs ++ revs.take (k - bevs.length)) := by
          rw [List.take_succ_cons, List.take_succ_cons,
            List.take_append_eq_append_take,
            List.take_of_length_le (by omega)]
        rw [htk]
        have hbinit : bevs.count XpEvent.sessionInit = 0 := by
          have := hbevs_cnt_init bevs.length
          rwa [List.take_length] at this
        have hbfree : bevs.count XpEvent.sessionFree = 0 := by
          have := hbevs_cnt_free bevs.length
          rwa [List.take_length] at this
        refine ⟨by omega, ?_, ?_⟩ <;>
          simp [List.count_cons, List.count_append, hbinit, hbfree, hci, hcf] <;>
          omega

theorem groupLoop_count_total (buf : List Nat) :
    ∀ (groups : List Nat) (g offset : Nat),
      ((groupLoop buf groups g offset).1).count XpEvent.sessionInit = groups.length ∧
      ((groupLoop buf groups g offset).1).count XpEvent.sessionFree = groups.length := by
  intro groups
  induction groups with
  | nil => intro g offset; simp [groupLoop]
  | cons n rest ih =>
    intro g offset
    rcases hbl : blockLoop buf g n offset with ⟨bevs, o2⟩
    rcases hgl : groupLoop buf rest (g + 1) o2 with ⟨revs, fin⟩
    have hevs : (groupLoop buf (n :: rest) g offset).1 =
        XpEvent.sessionFree :: XpEvent.sessionInit :: (bevs ++ revs) := by
      rw [groupLoop, hbl]
      dsimp only
      rw [hgl]
    have hbinit : bevs.count XpEvent.sessionInit = 0 := by
      have := blockLoop_count_zero buf g n offset XpEvent.sessionInit (by simp)
      rwa [hbl] at this
    have hbfree : bevs.count XpEvent.sessionFree = 0 := by
      have := blockLoop_count_zero buf g n offset XpEvent.sessionFree (by simp)
      rwa [hbl] at this
    have hrest := ih (g + 1) o2
    rw [hgl] at hrest
    rw [hevs]
    simp [List.count_cons, List.count_append, hbinit, hbfree, hrest.1, hrest.2]

/-- C7: in multi-threaded mode, every `xpress9_decompress` call for a block
of thread group `g` happens after exactly `g + 1` session creations and
`g + 1` session frees — the session is freed and re-created at the start of
each group, so no block runs in a previous group's session; block group
indices are non-decreasing along the trace; and the number of groups (one
init per group) is prefix threads plus main threads, prefix groups first. -/
theorem decompressXpress9_fresh_session_per_group_c7 :
    ∀ (buf : List Nat) (tr : List XpEvent) (pT mT : Nat),
      decompressXpress9Trace buf = some tr →
      containsSub (sigChars buf) mtSigCodes = true →
      dvU64 buf 118 = some pT →
      dvU64 buf 126 = some mT →
      (∀ i g, tr.get? i = some (XpEvent.blockDecompress g) →
          (tr.take i).count XpEvent.sessionInit = g + 1 ∧
          (tr.take i).count XpEvent.sessionFree = g + 1) ∧
      (∀ i j gi gj, i ≤ j →
          tr.get? i = some (XpEvent.blockDecompress gi) →
          tr.get? j = some (XpEvent.blockDecompress gj) → gi ≤ gj) ∧
      tr.count XpEvent.sessionInit = pT + mT ∧
      tr.count XpEvent.sessionFree = pT + mT + 1 := by
  intro buf tr pT mT htr hflag hpT hmT
  rw [decompressXpress9Trace] at htr
  rw [hflag] at htr
  simp only [if_true] at htr
  rcases hmc : dvU64 buf 102 with _ | mc
  · rw [hmc] at htr; simp at htr
  rcases hpc : dvU64 buf 110 with _ | pc
  · rw [hmc, hpc] at htr; simp at htr
  rcases hcs : dvU64 buf 134 with _ | cs
  · rw [hmc, hpc, hpT, hmT, hcs] at htr; simp at htr
  rw [hmc, hpc, hpT, hmT, hcs] at htr
  simp only [Option.bind_eq_bind, Option.some_bind, Option.pure_def,
    Option.some.injEq] at htr
  set groups := List.replicate pT pc ++ List.replicate mT mc with hgroups
  set evs := (groupLoop buf groups 0 142).1 with hevs
  subst htr
  have hblock : ∀ i g,
      (evs ++ [XpEvent.sessionFree]).get? i = some (XpEvent.blockDecompress g) →
      ((evs ++ [XpEvent.sessionFree]).take i).count XpEvent.sessionInit = g + 1 ∧
      ((evs ++ [XpEvent.sessionFree]).take i).count XpEvent.sessionFree = g + 1 := by
    intro i g hget
    by_cases hi : i < evs.length
    · rw [List.get?_append hi] at hget
      have h := groupLoop_get_block buf groups 0 142 i g hget
      rw [List.take_append_of_le_length (by omega)]
      exact ⟨by simpa using h.2.1, by simpa using h.2.2⟩
    · rw [List.get?_append_right (by omega)] at hget
      rcases hd : i - evs.length with _ | k
      · rw [hd] at hget; simp at hget
      · rw [hd] at hget; simp at hget
  refine ⟨hblock, ?_, ?_, ?_⟩
  · intro i j gi gj hij hgi hgj
    have h1 := (hblock i gi hgi).1
    have h2 := (hblock j gj hgj).1
    have hsub : List.Sublist ((evs ++ [XpEvent.sessionFree]).take i)
        ((evs ++ [XpEvent.sessionFree]).take j) := by
      rw [show i = min i j by omega, ← List.take_take]
      exact List.take_sublist _ _
    have := hsub.count_le XpEvent.sessionInit
    omega
  · have h := (groupLoop_count_total buf groups 0 142).1
    rw [List.count_append]
    simp only [← hevs] at h
    rw [h]
    simp [hgroups]
  · have h := (groupLoop_count_total buf groups 0 142).2
    rw [List.count_append]
    simp only [← hevs] at h
    rw [h]
    simp [hgroups]

/-- Concrete 160-byte multi-threaded stream for the C7 witness:
`'multithreaded'` signature, counters (1 main block, 1 prefix block, 1 prefix
thread, 1 main thread), and two 1-byte blocks. -/
def c7Buf : List Nat :=
  [109, 0, 117, 0, 108, 0, 116, 0, 105, 0, 116, 0, 104, 0, 114, 0, 101, 0,
   97, 0, 100, 0, 101, 0, 100, 0] ++ List.replicate 76 0 ++
  [1, 0, 0, 0, 0, 0, 0, 0] ++ [1, 0, 0, 0, 0, 0, 0, 0] ++
  [1, 0, 0, 0, 0, 0, 0, 0] ++ [1, 0, 0, 0, 0, 0, 0, 0] ++
  [0, 0, 0, 0, 0, 0, 0, 0] ++
  [1, 0, 0, 0, 1, 0, 0, 0, 170] ++ [1, 0, 0, 0, 1, 0, 0, 0, 170]

/-- The trace of `c7Buf`: fresh session per group, one block per group. -/
def c7Trace : List XpEvent :=
  [XpEvent.sessionFree, XpEvent.sessionInit, XpEvent.blockDecompress 0,
   XpEvent.sessionFree, XpEvent.sessionInit, XpEvent.blockDecompress 1,
   XpEvent.sessionFree]

set_option maxRecDepth 8000 in
theorem decompressXpress9_fresh_session_per_group_c7_witness :
    (c7Trace.take 5).count XpEvent.sessionInit = 1 + 1 ∧
    (c7Trace.take 5).count XpEvent.sessionFree = 1 + 1 :=
  (decompressXpress9_fresh_session_per_group_c7 c7Buf c7Trace 1 1
    (by decide) (by decide) (by decide) (by decide)).1 5 1 (by decide)

/-! ## Duplicate-query merging (parseXlsxFile / parsePbixFile, app.js 24-80)

Both parsers accumulate every extraction path's queries through the local
`addUnique` closure, which keys each query by `fileName + '::' + name` in the
`seen` set and appends only unseen keys.  The archive traversal itself
(JSZip) is external; each extraction call's result is one batch. -/

/-- The dedup key `q.fileName + '::' + q.name`. -/
def queryKey (q : Query) : String := q.fileName ++ "::" ++ q.name

/-- `addUnique(nq)`: fold one batch into the `(seen, queries)` state. -/
def addUniqueBatch (st : List String × List Query) (nq : List Query) :
    List String × List Query :=
  nq.foldl
    (fun st q =>
      if queryKey q ∈ st.1 then st else (st.1 ++ [queryKey q], st.2 ++ [q]))
    st

/-- `parseXlsxFile`: DataMashup batches from `customXml/*.bin` entries, then
batches from `customXml/item*.xml` entries, then — only when no query was
found so far and `xl/connections.xml` exists — the connections batch. -/
def parseXlsxFileModel (binBatches xmlBatches : List (List Query))
    (connBatch : List Query) (hasConn : Bool) : List Query :=
  let st1 := binBatches.foldl addUniqueBatch ([], [])
  let st2 := xmlBatches.foldl addUniqueBatch st1
  let st3 := if st2.2 = [] ∧ hasConn then addUniqueBatch st2 connBatch else st2
  st3.2

/-- One optional batch folded into the state: `none` = entry absent or its
extraction threw (nothing added), `some b` = `addUnique(b)`. -/
def optBatch (st : List String × List Query) : Option (List Query) → List String × List Query
  | some b => addUniqueBatch st b
  | none => st

/-- `parsePbixFile`: the DataMashup batch (when the entry exists and its
extraction did not throw), then the DataModelSchema batch if no query was
found, then the DataModel batch if still none. -/
def parsePbixFileModel (dmBatch schemaBatch dataModelBatch : Option (List Query)) :
    List Query :=
  let st1 := optBatch ([], []) dmBatch
  let st2 := if st1.2 = [] then optBatch st1 schemaBatch else st1
  let st3 := if st2.2 = [] then optBatch st2 dataModelBatch else st2
  st3.2

/-- First-occurrence filter: the canonical "first-seen query per key is kept,
later duplicates are discarded" result for a stream of queries, relative to
an initial set of already-seen keys. -/
def filterNewKeys (seen : List String) : List Query → List Query
  | [] => []
  | q :: rest =>
    if queryKey q ∈ seen then filterNewKeys seen rest
    else q :: filterNewKeys (seen ++ [queryKey q]) rest

/-- No two queries of the list share a `(fileName, name)` key. -/
def distinctKeys (l : List Query) : Prop :=
  l.Pairwise (fun a b => queryKey a ≠ queryKey b)

theorem addUniqueBatch_eq (nq : List Query) :
    ∀ (seen : List String) (acc : List Query),
      addUniqueBatch (seen, acc) nq =
        (seen ++ (filterNewKeys seen nq).map queryKey,
         acc ++ filterNewKeys seen nq) := by
  induction nq with
  | nil => intro seen acc; simp [addUniqueBatch, filterNewKeys]
  | cons q rest ih =>
    intro seen acc
    rw [filterNewKeys]
    by_cases h : queryKey q ∈ seen
    · rw [if_pos h]
      show addUniqueBatch (if queryKey q ∈ seen then (seen, acc)
        else (seen ++ [queryKey q], acc ++ [q])) rest = _
      rw [if_pos h, ih]
    · rw [if_neg h]
      show addUniqueBatch (if queryKey q ∈ seen then (seen, acc)
        else (seen ++ [queryKey q], acc ++ [q])) rest = _
      rw [if_neg h, ih]
      simp

theorem foldl_addUniqueBatch_eq (batches : List (List Query)) :
    ∀ (seen : List String) (acc : List Query),
      batches.foldl addUniqueBatch (seen, acc) =
        (seen ++ (filterNewKeys seen batches.flatten).map queryKey,
         acc ++ filterNewKeys seen batches.flatten) := by
  induction batches with
  | nil => intro seen acc; simp [filterNewKeys]
  | cons b rest ih =>
    intro seen acc
    rw [List.foldl_cons, addUniqueBatch_eq, ih]
    have hsplit : ∀ (s : List String) (l1 l2 : List Query),
        filterNewKeys s (l1 ++ l2) =
          filterNewKeys s l1 ++
            filterNewKeys (s ++ (filterNewKeys s l1).map queryKey) l2 := by
      intro s l1
      induction l1 generalizing s with
      | nil => intro l2; simp [filterNewKeys]
      | cons q r ihq =>
        intro l2
        rw [List.cons_append, filterNewKeys, filterNewKeys]
        by_cases h : queryKey q ∈ s
        · rw [if_pos h, if_pos h, ihq]
        · rw [if_neg h, if_neg h, ihq]
          simp
    rw [List.flatten_cons, hsplit]
    simp

theorem filterNewKeys_key_not_seen (seen : List String) (l : List Query) :
    ∀ q ∈ filterNewKeys seen l, queryKey q ∉ seen := by
  induction l generalizing seen with
  | nil => intro q h; simp [filterNewKeys] at h
  | cons p rest ih =>
    intro q h
    rw [filterNewKeys] at h
    by_cases hp : queryKey p ∈ seen
    · rw [if_pos hp] at h
      exact ih seen q h
    · rw [if_neg hp] at h
      rcases List.mem_cons.mp h with h | h
      · intro hq
        exact hp (h ▸ hq)
      · intro hq
        exact ih (seen ++ [queryKey p]) q h (by simp [hq])

theorem filterNewKeys_pairwise (seen : List String) (l : List Query) :
    distinctKeys (filterNewKeys seen l) := by
  induction l generalizing seen with
  | nil => simp [filterNewKeys, distinctKeys]
  | cons p rest ih =>
    rw [filterNewKeys]
    by_cases hp : queryKey p ∈ seen
    · rw [if_pos hp]; exact ih seen
    · rw [if_neg hp]
      refine List.Pairwise.cons ?_ (ih (seen ++ [queryKey p]))
      intro q hq heq
      exact filterNewKeys_key_not_seen _ _ q hq (by simp [heq])

/-- The invariant carried by the `(seen, queries)` state: distinct keys, all
recorded in `seen`. -/
def seenInv (st : List String × List Query) : Prop :=
  distinctKeys st.2 ∧ ∀ q ∈ st.2, queryKey q ∈ st.1

theorem addUniqueBatch_inv (st : List String × List Query) (b : List Query)
    (h : seenInv st) : seenInv (addUniqueBatch st b) := by
  obtain ⟨s, l⟩ := st
  obtain ⟨hpw, hmem⟩ := h
  rw [addUniqueBatch_eq]
  constructor
  · exact List.pairwise_append.mpr ⟨hpw, filterNewKeys_pairwise s b,
      fun a ha b2 hb2 heq => filterNewKeys_key_not_seen s b b2 hb2 (heq ▸ hmem a ha)⟩
  · intro q hq
    rcases List.mem_append.mp hq with h | h
    · exact List.mem_append.mpr (Or.inl (hmem q h))
    · exact List.mem_append.mpr (Or.inr (List.mem_map_of_mem _ h))

theorem foldl_addUniqueBatch_inv (batches : List (List Query)) :
    ∀ st, seenInv st → seenInv (batches.foldl addUniqueBatch st) := by
  induction batches with
  | nil => intro st h; simpa using h
  | cons b rest ih =>
    intro st h
    rw [List.foldl_cons]
    exact ih _ (addUniqueBatch_inv st b h)

theorem optBatch_inv (st : List String × List Query) (ob : Option (List Query))
    (h : seenInv st) : seenInv (optBatch st ob) := by
  rcases ob with _ | b
  · exact h
  · exact addUniqueBatch_inv st b h

/-- C9: both parsers return pairwise-distinct `(fileName, name)` keys — two
queries with the same container and name never both survive — and the
accumulated result of any sequence of extraction batches is exactly the
first-occurrence filter of the concatenated stream: the first-seen query per
key is kept and later duplicates are discarded, never appended. -/
theorem parseFiles_unique_keys_c9 :
    (∀ (binBatches xmlBatches : List (List Query)) (connBatch : List Query)
        (hasConn : Bool),
        distinctKeys (parseXlsxFileModel binBatches xmlBatches connBatch hasConn)) ∧
    (∀ dmBatch schemaBatch dataModelBatch : Option (List Query),
        distinctKeys (parsePbixFileModel dmBatch schemaBatch dataModelBatch)) ∧
    (∀ batches : List (List Query),
        (batches.foldl addUniqueBatch ([], [])).2 =
          filterNewKeys [] batches.flatten) := by
  have hinit : seenInv (([] : List String), ([] : List Query)) :=
    ⟨List.Pairwise.nil, by simp⟩
  have hite : ∀ (c : Prop) [Decidable c] (a b : List String × List Query),
      seenInv a → seenInv b → seenInv (if c then a else b) := by
    intro c _ a b ha hb
    split <;> assumption
  refine ⟨?_, ?_, ?_⟩
  · intro binBatches xmlBatches connBatch hasConn
    have h2 := foldl_addUniqueBatch_inv xmlBatches _
      (foldl_addUniqueBatch_inv binBatches _ hinit)
    exact (hite _ _ _ (addUniqueBatch_inv _ connBatch h2) h2).1
  · intro dmBatch schemaBatch dataModelBatch
    have h1 := optBatch_inv ([], []) dmBatch hinit
    have h2 := hite ((optBatch ([], []) dmBatch).2 = []) _ _
      (optBatch_inv _ schemaBatch h1) h1
    exact (hite _ _ _ (optBatch_inv _ dataModelBatch h2) h2).1
  · intro batches
    rw [foldl_addUniqueBatch_eq]
    simp

/-! ## Column extraction (_extractColumn / extractTableData, app.js 1427-1472)

Values are JavaScript numbers, strings, Dates or null.  Numbers are modelled
as exact rationals (`ℚ`); the only decode step where IEEE doubles round —
`value / 10000` for currency and the `/ magnitude` of the hierarchy path —
is modelled by exact division, and no theorem below evaluates it off the
integers. -/

/-- A resolved column value. -/
inductive ColValue where
  | vnull
  | vnum (q : ℚ)
  | vstr (s : String)
  | vdate (ms : ℚ)
deriving DecidableEq, Repr

/-- `DataView.getBigInt64(pos, true)` followed by `Number(...)` (exact below
`2^53`, modelled exactly). -/
def dvI64 (b : List Nat) (o : Nat) : Option Int :=
  (dvU64 b o).map (fun n => if n < 2 ^ 63 then (n : Int) else (n : Int) - 2 ^ 64)

/-- `DataView.getFloat64(pos, true)`: exact rational value of the IEEE-754
double (every finite double is rational).  NaN/Infinity (exponent 2047) is
mapped to 0; the numeric dictionaries decoded here never store it. -/
def dvF64 (b : List Nat) (o : Nat) : Option ℚ :=
  (dvU64 b o).map (fun bits =>
    let sign : ℚ := if bits / 2 ^ 63 = 1 then -1 else 1
    let e : Nat := bits / 2 ^ 52 % 2 ^ 11
    let m : Nat := bits % 2 ^ 52
    if e = 2047 then 0
    else if e = 0 then sign * m * (2 : ℚ) ^ (-(1074 : Int))
    else sign * ((2 : ℚ) ^ (52 : Nat) + m) * (2 : ℚ) ^ ((e : Int) - 1075))

/-- One column of `buildSchemaFromSQLite`'s output, as consumed by
`_extractColumn`: storage-file names for the value index (`idf`), the
optional dictionary and the optional hierarchy index, plus the conversion
parameters. -/
structure ColumnSchema where
  name : String
  idf : String
  dictionary : Option String
  hidx : Option String
  dataType : Nat
  baseId : Int
  magnitude : ℚ
  isNullable : Bool
  cardinality : Nat
deriving DecidableEq, Repr

/-- `convertColumnValue(value, dataType)`: null passes through, type 9 turns
a number into a serial date (`new Date((value - 25569) * 86400000)`, kept as
its millisecond timestamp), type 10 divides by 10000, everything else is
unchanged.  (Applying type 9/10 to a non-numeric value produces an invalid
Date / NaN in JavaScript; such mistyped columns are not modelled and never
arise below.) -/
def convertColumnValue (v : ColValue) (dataType : Nat) : ColValue :=
  match v, dataType with
  | ColValue.vnull, _ => ColValue.vnull
  | ColValue.vnum q, 9 => ColValue.vdate ((q - 25569) * 86400000)
  | ColValue.vnum q, 10 => ColValue.vnum (q / 10000)
  | v, _ => v

/-- The value loop of `readNumericDictionary`: `elemSize = 4` reads `Int32`,
`elemSize = 8` with dictType 0 reads `Int64`, anything else reads a
`Float64`; ids are assigned from `minDataId` upward. -/
def readNumValues (buf : List Nat) (elemSize : Nat) (dictType : Int) :
    Nat → Nat → Nat → Option (List (Nat × ColValue))
  | 0, _, _ => some []
  | n + 1, pos, id => do
    let (v, sz) ←
      if elemSize = 4 then
        (dvI32 buf pos).map (fun i => (ColValue.vnum (i : ℚ), 4))
      else if elemSize = 8 ∧ dictType = 0 then
        (dvI64 buf pos).map (fun i => (ColValue.vnum (i : ℚ), 8))
      else
        (dvF64 buf pos).map (fun q => (ColValue.vnum q, 8))
    let rest ← readNumValues buf elemSize dictType n (pos + sz) (id + 1)
    pure ((id, v) :: rest)

/-- `readNumericDictionary(buf, pos, minDataId, dictType)`: count-prefixed
flat array of fixed-width values. -/
def readNumericDictionary (buf : List Nat) (pos minDataId : Nat) (dictType : Int) :
    Option (List (Nat × ColValue)) := do
  let count ← dvU64 buf pos
  let elemSize ← dvU32 buf (pos + 8)
  readNumValues buf elemSize dictType count (pos + 12) minDataId

/-- `readDictionary(buf, minDataId)` restricted to numeric dictionaries:
4-byte type discriminator, 24 bytes of hash information, then the numeric
array at offset 28.  The string-dictionary path (type 2: Huffman-coded
pages) is not modelled — `none` here — and every `_extractColumn` /
`extractTableData` theorem below either quantifies over the dictionary
reader or never evaluates it on a type-2 buffer.  Unknown discriminators
yield an empty map as in the source. -/
def readDictionaryNumeric (buf : List Nat) (minDataId : Nat) :
    Option (List (Nat × ColValue)) := do
  let dictType ← dvI32 buf 0
  if dictType = 2 then none
  else if dictType = 0 ∨ dictType = 1 then
    readNumericDictionary buf 28 minDataId dictType
  else pure []

/-- `_extractColumn(col, fileCache)` (app.js 1427-1454), with the dictionary
reader (`readDictionary` in the source) passed as the parameter `readDict`
(`none` = the reader threw).  Returns:
`Except.error` when `readIdf` throws (the only uncaught throw — it sits
outside every `try`), `.ok none` for the `return null` paths (meta file
missing or unreadable, index file missing), and `.ok (some values)`
otherwise.  A missing dictionary file or a throwing dictionary read falls
back to the raw ids (`return indices`). -/
def _extractColumn (readDict : List Nat → Nat → Option (List (Nat × ColValue)))
    (col : ColumnSchema) (fileCache : List (String × List Nat)) :
    Except Unit (Option (List ColValue)) :=
  match (fileCache.lookup (col.idf ++ "meta")).bind readIdfMeta with
  | none => .ok none
  | some meta =>
    match fileCache.lookup col.idf with
    | none => .ok none
    | some idfBuf =>
      match readIdf idfBuf with
      | none => .error ()
      | some idfData =>
        let indices := decodeRleBitPackedHybrid idfData meta
        match col.dictionary with
        | some dname =>
          match fileCache.lookup dname with
          | none => .ok (some (indices.map (fun (i : Nat) => ColValue.vnum (i : ℚ))))
          | some dictBuf =>
            match readDict dictBuf meta.minDataId with
            | none => .ok (some (indices.map (fun (i : Nat) => ColValue.vnum (i : ℚ))))
            | some dict =>
              .ok (some (indices.map (fun idx =>
                match dict.lookup idx with
                | some v => convertColumnValue v col.dataType
                | none => ColValue.vnull)))
        | none =>
          match col.hidx with
          | some _ =>
            .ok (some (indices.map (fun (idx : Nat) =>
              convertColumnValue
                (ColValue.vnum (((idx : ℚ) + (col.baseId : ℚ)) / col.magnitude))
                col.dataType)))
          | none => .ok (some (indices.map (fun (i : Nat) => ColValue.vnum (i : ℚ))))

/-- The decoded table: column names, per-column value arrays, and the row
count (the maximum length across columns). -/
structure TableData where
  columns : List String
  columnData : List (List ColValue)
  rowCount : Nat
deriving DecidableEq, Repr

/-- The per-column loop of `extractTableData`: columns whose extraction
returns null are skipped; an uncaught `readIdf` throw aborts the table. -/
def collectCols (readDict : List Nat → Nat → Option (List (Nat × ColValue)))
    (cols : List ColumnSchema) (fileCache : List (String × List Nat)) :
    Except Unit (List (String × List ColValue)) :=
  match cols with
  | [] => .ok []
  | c :: rest => do
    let v ← _extractColumn readDict c fileCache
    let tail ← collectCols readDict rest fileCache
    match v with
    | none => pure tail
    | some values => pure ((c.name, values) :: tail)

/-- `extractTableData(tableName, schema, fileCache)` (app.js 1456-1472);
`Except.error` models `throw new Error('Table not found')` and the
propagated `readIdf` throw. -/
def extractTableData (readDict : List Nat → Nat → Option (List (Nat × ColValue)))
    (tableName : String) (schema : List (String × List ColumnSchema))
    (fileCache : List (String × List Nat)) : Except Unit TableData :=
  match schema.lookup tableName with
  | none => .error ()
  | some tableSchema =>
    match collectCols readDict tableSchema fileCache with
    | .error e => .error e
    | .ok pairs =>
      .ok ⟨pairs.map (fun p => p.1), pairs.map (fun p => p.2),
        (pairs.map (fun p => p.2)).foldl (fun m c => max m c.length) 0⟩

/-- The columns `extractTableData` keeps, each with its values: exactly
those whose `_extractColumn` is non-null, in schema order. -/
def keptColumns (readDict : List Nat → Nat → Option (List (Nat × ColValue)))
    (cols : List ColumnSchema) (fileCache : List (String × List Nat)) :
    List (String × List ColValue) :=
  cols.filterMap (fun c =>
    match _extractColumn readDict c fileCache with
    | .ok (some v) => some (c.name, v)
    | _ => none)

theorem collectCols_eq (readDict : List Nat → Nat → Option (List (Nat × ColValue)))
    (fileCache : List (String × List Nat)) :
    ∀ cols : List ColumnSchema,
      (∀ c ∈ cols, ∃ r, _extractColumn readDict c fileCache = .ok r) →
      collectCols readDict cols fileCache = .ok (keptColumns readDict cols fileCache) := by
  intro cols
  induction cols with
  | nil => intro _; simp [collectCols, keptColumns]
  | cons c rest ih =>
    intro h
    obtain ⟨r, hr⟩ := h c (by simp)
    have htail := ih (fun c2 hc2 => h c2 (by simp [hc2]))
    rw [collectCols, keptColumns, List.filterMap_cons]
    rw [hr, htail]
    rcases r with _ | v <;> simp [hr, keptColumns, Bind.bind, Except.bind, pure, Except.pure]

/-- C2 (amended): a column whose dictionary storage file is absent from the
file cache is NOT dropped — `_extractColumn` returns its raw dictionary ids
(`if (!dictBuf) return indices`), so the column stays in the table with
undecoded ids — and `extractTableData` processes columns independently:
whenever no column throws, the table is exactly the schema-ordered list of
columns whose extraction is non-null (only a missing/unreadable meta file or
missing index file drops a column), with row count the maximum length. -/
theorem extractTableData_dictless_kept_c2 :
    (∀ (readDict : List Nat → Nat → Option (List (Nat × ColValue)))
        (col : ColumnSchema) (fileCache : List (String × List Nat))
        (mb ib : List Nat) (m : IdfMeta) (d : IdfData) (dname : String),
        fileCache.lookup (col.idf ++ "meta") = some mb →
        readIdfMeta mb = some m →
        fileCache.lookup col.idf = some ib →
        readIdf ib = some d →
        col.dictionary = some dname →
        fileCache.lookup dname = none →
        _extractColumn readDict col fileCache =
          .ok (some ((decodeRleBitPackedHybrid d m).map
            (fun (i : Nat) => ColValue.vnum (i : ℚ))))) ∧
    (∀ (readDict : List Nat → Nat → Option (List (Nat × ColValue)))
        (tableName : String) (schema : List (String × List ColumnSchema))
        (fileCache : List (String × List Nat)) (cols : List ColumnSchema),
        schema.lookup tableName = some cols →
        (∀ c ∈ cols, ∃ r, _extractColumn readDict c fileCache = .ok r) →
        extractTableData readDict tableName schema fileCache =
          .ok ⟨(keptColumns readDict cols fileCache).map (fun p => p.1),
               (keptColumns readDict cols fileCache).map (fun p => p.2),
               ((keptColumns readDict cols fileCache).map (fun p => p.2)).foldl
                 (fun m c => max m c.length) 0⟩) := by
  constructor
  · intro readDict col fileCache mb ib m d dname hmb hm hib hd hdict hmiss
    unfold _extractColumn
    rw [hmb]
    simp only [Option.bind]
    rw [hm]
    dsimp only
    rw [hib]
    dsimp only
    rw [hd]
    dsimp only
    rw [hdict]
    dsimp only
    rw [hmiss]
  · intro readDict tableName schema fileCache cols hlookup hok
    unfold extractTableData
    rw [hlookup]
    dsimp only
    rw [collectCols_eq readDict fileCache cols hok]

/-- Concrete C2 instance: 153-byte all-zero index metadata (minDataId 0,
no bit-packed entries). -/
def c2MetaBytes : List Nat := List.replicate 153 0

/-- Index body of column A: one literal primary entry `(7, 2)`. -/
def c2IdfA : List Nat :=
  [1, 0, 0, 0, 0, 0, 0, 0, 7, 0, 0, 0, 2, 0, 0, 0, 0, 0, 0, 0, 0, 0, 0, 0]

/-- Index body of column B: one literal primary entry `(0, 2)`. -/
def c2IdfB : List Nat :=
  [1, 0, 0, 0, 0, 0, 0, 0, 0, 0, 0, 0, 2, 0, 0, 0, 0, 0, 0, 0, 0, 0, 0, 0]

/-- Numeric dictionary for column B: type 0, one 4-byte entry with value 10. -/
def c2DictB : List Nat :=
  [0, 0, 0, 0] ++ List.replicate 24 0 ++
    [1, 0, 0, 0, 0, 0, 0, 0] ++ [4, 0, 0, 0] ++ [10, 0, 0, 0]

/-- Column A: its dictionary file "dictA" is NOT in the cache. -/
def c2ColA : ColumnSchema := ⟨"A", "idfA", some "dictA", none, 0, 0, 1, false, 0⟩

/-- Column B: dictionary file "dictB" present and decodable. -/
def c2ColB : ColumnSchema := ⟨"B", "idfB", some "dictB", none, 0, 0, 1, false, 0⟩

/-- The file cache: both index files and their meta files, plus B's
dictionary; A's dictionary is absent. -/
def c2Cache : List (String × List Nat) :=
  [("idfA", c2IdfA), ("idfAmeta", c2MetaBytes), ("idfB", c2IdfB),
   ("idfBmeta", c2MetaBytes), ("dictB", c2DictB)]

/-- One table "T" with columns A and B. -/
def c2Schema : List (String × List ColumnSchema) := [("T", [c2ColA, c2ColB])]

set_option maxRecDepth 20000 in
/-- C2 counterexample: column A's dictionary file is missing from the cache,
yet `extractTableData` keeps "A" in the column list (with its raw ids
`[7, 7]`) instead of dropping it; column B decodes through its dictionary to
`[10, 10]`. -/
theorem extractTableData_keeps_dictless_column_c2_counterexample :
    c2ColA.dictionary = some "dictA" ∧
    c2Cache.lookup "dictA" = none ∧
    extractTableData readDictionaryNumeric "T" c2Schema c2Cache =
      .ok ⟨["A", "B"], [[ColValue.vnum 7, ColValue.vnum 7],
                        [ColValue.vnum 10, ColValue.vnum 10]], 2⟩ ∧
    "A" ∈ (["A", "B"] : List String) := by
  refine ⟨by decide, by decide, by decide, by decide⟩

set_option maxRecDepth 20000 in
theorem extractTableData_dictless_kept_c2_witness :
    _extractColumn readDictionaryNumeric c2ColA c2Cache =
      .ok (some ((decodeRleBitPackedHybrid ⟨[⟨7, 2⟩], []⟩ ⟨0, 0, 36, 0⟩).map
        (fun (i : Nat) => ColValue.vnum (i : ℚ)))) :=
  extractTableData_dictless_kept_c2.1 readDictionaryNumeric c2ColA c2Cache
    c2MetaBytes c2IdfA ⟨0, 0, 36, 0⟩ ⟨[⟨7, 2⟩], []⟩ "dictA"
    (by decide) (by decide) (by decide) (by decide) (by decide) (by decide)

/-! ## M-code analyzer (stripCS / findDeps / findExternalFileRefs /
parseMCodeFile, app.js 189-269)

The regular expressions of the source are deterministic on their inputs
(each alternation and each greedy star is decided by the next character), so
they are modelled as recursive scanners over `List Char`; positions are
tracked as indices.  The JavaScript `\s`, `\w` and `trim()` classes are
modelled over their ASCII parts (the inputs handled by the claims, and M
source generally, are ASCII). -/

/-- `\w` = `[A-Za-z0-9_]`. -/
def isWordChar (c : Char) : Bool := c.isAlphanum || c == '_'

/-- `[A-Za-z_]`, the first character of the identifier pattern. -/
def isIdentStart (c : Char) : Bool := c.isAlpha || c == '_'

/-- `\s`, ASCII part. -/
def isJsSpace (c : Char) : Bool :=
  c == ' ' || c == '\t' || c == '\n' || c == '\r' || c == '\x0b' || c == '\x0c'

/-- `String.prototype.trim`. -/
def trimJs (l : List Char) : List Char :=
  ((l.dropWhile isJsSpace).reverse.dropWhile isJsSpace).reverse

/-- The `#"..."` inner loop of `stripCS`: content copied verbatim, doubled
quotes copied, single quote closes; returns the emitted text and the rest of
the input. -/
def stripHashQuoted : List Char → List Char × List Char
  | [] => ([], [])
  | '"' :: '"' :: rest =>
    let (e, r) := stripHashQuoted rest
    ('"' :: '"' :: e, r)
  | '"' :: rest => (['"'], rest)
  | c :: rest =>
    let (e, r) := stripHashQuoted rest
    (c :: e, r)

/-- The string-literal inner loop of `stripCS`: content blanked (newlines
kept), doubled quotes become two spaces, single quote closes as a space. -/
def stripString : List Char → List Char × List Char
  | [] => ([], [])
  | '"' :: '"' :: rest =>
    let (e, r) := stripString rest
    (' ' :: ' ' :: e, r)
  | '"' :: rest => ([' '], rest)
  | c :: rest =>
    let (e, r) := stripString rest
    ((if c == '\n' then '\n' else ' ') :: e, r)

/-- The block-comment inner loop of `stripCS`. -/
def stripBlockComment : List Char → List Char × List Char
  | [] => ([], [])
  | '*' :: '/' :: rest => ([' ', ' '], rest)
  | c :: rest =>
    let (e, r) := stripBlockComment rest
    ((if c == '\n' then '\n' else ' ') :: e, r)

/-- The line-comment loop of `stripCS`: spaces up to (not including) the
newline. -/
def stripLineComment : List Char → List Char × List Char
  | [] => ([], [])
  | '\n' :: rest => ([], '\n' :: rest)
  | _ :: rest =>
    let (e, r) := stripLineComment rest
    (' ' :: e, r)

/-- The main loop of `stripCS(code)`: `#"..."` preserved verbatim, string
literals and both comment styles blanked to same-length whitespace.  Each
step consumes at least one character, so `length + 1` fuel suffices. -/
def stripCSGo : Nat → List Char → List Char
  | 0, _ => []
  | fuel + 1, cs =>
    match cs with
    | [] => []
    | '#' :: '"' :: rest =>
      let (e, r) := stripHashQuoted rest
      '#' :: '"' :: (e ++ stripCSGo fuel r)
    | '"' :: rest =>
      let (e, r) := stripString rest
      ' ' :: (e ++ stripCSGo fuel r)
    | '/' :: '*' :: rest =>
      let (e, r) := stripBlockComment rest
      ' ' :: ' ' :: (e ++ stripCSGo fuel r)
    | '/' :: '/' :: rest =>
      let (e, r) := stripLineComment ('/' :: '/' :: rest)
      e ++ stripCSGo fuel r
    | c :: rest => c :: stripCSGo fuel rest

/-- `stripCS(code)`. -/
def stripCS (code : List Char) : List Char := stripCSGo (code.length + 1) code

/-- The `#"..."`-blanking inner loop of `findDeps`'s preliminary pass:
delimiters kept, content blanked (doubled quotes become two spaces,
newlines kept). -/
def blankHashQuoted : List Char → List Char × List Char
  | [] => ([], [])
  | '"' :: '"' :: rest =>
    let (e, r) := blankHashQuoted rest
    (' ' :: ' ' :: e, r)
  | '"' :: rest => (['"'], rest)
  | c :: rest =>
    let (e, r) := blankHashQuoted rest
    ((if c == '\n' then '\n' else ' ') :: e, r)

/-- The preliminary pass of `findDeps` building `scan`: blank the contents
of every `#"..."` so the plain-identifier regex cannot match inside them. -/
def findDepsScanGo : Nat → List Char → List Char
  | 0, _ => []
  | _ + 1, [] => []
  | fuel + 1, '#' :: '"' :: rest =>
    let (e, r) := blankHashQuoted rest
    '#' :: '"' :: (e ++ findDepsScanGo fuel r)
  | fuel + 1, c :: rest => c :: findDepsScanGo fuel rest

/-- The blanked copy `scan` of the stripped code. -/
def findDepsScan (sc : List Char) : List Char := findDepsScanGo (sc.length + 1) sc

/-- All maximal word-character runs of the text, each with the character
that follows it (the matches of `/\b([A-Za-z_][\w]*)\b/g` are exactly the
maximal runs whose first character is a letter or underscore). -/
def wordTokensGo : Nat → List Char → List (List Char × Option Char)
  | 0, _ => []
  | _ + 1, [] => []
  | fuel + 1, c :: rest =>
    if isWordChar c then
      ((c :: rest).takeWhile isWordChar, ((c :: rest).dropWhile isWordChar).head?) ::
        wordTokensGo fuel ((c :: rest).dropWhile isWordChar)
    else wordTokensGo fuel rest

/-- Word tokens of a text. -/
def wordTokens (l : List Char) : List (List Char × Option Char) :=
  wordTokensGo (l.length + 1) l

/-- The keyword/namespace exclusion set `MKW` of app.js, verbatim. -/
def MKW : List String :=
  ["let", "in", "if", "then", "else", "true", "false", "null", "and", "or",
   "not", "each", "error", "try", "otherwise", "type", "is", "as", "meta",
   "section", "shared", "Table", "List", "Record", "Text", "Number", "Date",
   "DateTime", "DateTimeZone", "Duration", "Time", "Function", "Binary",
   "Csv", "Json", "Xml", "Excel", "Sql", "OData", "Web", "File", "Folder",
   "Lines", "Splitter", "Comparer", "Combiner", "Replacer", "Expression",
   "Error", "Value", "Type", "Action", "Uri", "Byte", "Currency",
   "Percentage", "Int8", "Int16", "Int32", "Int64", "Single", "Double",
   "Decimal", "Logical", "Access", "ActiveDirectory", "AdobeAnalytics",
   "AdoDotNet", "AnalysisServices", "AzureStorage", "DB2", "Cube",
   "Diagnostics", "Exchange", "Facebook", "GoogleAnalytics", "Hdfs",
   "Informix", "MySQL", "Odbc", "OleDb", "Oracle", "PDF", "PostgreSQL",
   "Salesforce", "SapBusinessWarehouse", "SapHana", "SharePoint", "Sybase",
   "Teradata", "Power", "Any", "Source", "Navigation", "Data", "Schema",
   "Item"]

/-- `Set.prototype.add` followed by `Array.from`: append if unseen
(insertion order preserved). -/
def insertUnique (l : List String) (x : String) : List String :=
  if x ∈ l then l else l ++ [x]

/-- The content of a `#"..."` / `"..."` body starting right after the
opening quote: characters with quotes doubled, closed by the first unpaired
quote; `none` when the input ends unclosed (the regex fails to match). -/
def hqContent : List Char → Option (List Char × List Char)
  | [] => none
  | '"' :: '"' :: rest => (hqContent rest).map (fun p => ('"' :: '"' :: p.1, p.2))
  | '"' :: rest => some ([], rest)
  | c :: rest => (hqContent rest).map (fun p => (c :: p.1, p.2))

/-- The matches of `/#"((?:[^"]*(?:""[^"]*)*)?)"/g`: raw captured contents,
scanning left to right, resuming after each match (on failure the engine
advances one character). -/
def hqScanGo : Nat → List Char → List (List Char)
  | 0, _ => []
  | _ + 1, [] => []
  | fuel + 1, '#' :: '"' :: rest =>
    (match hqContent rest with
     | some (content, r) => content :: hqScanGo fuel r
     | none => hqScanGo fuel ('"' :: rest))
  | fuel + 1, _ :: rest => hqScanGo fuel rest

/-- All doubled-hash-quoted identifier contents of a text (raw). -/
def hqScan (l : List Char) : List (List Char) := hqScanGo (l.length + 1) l

/-- `.replace(/""/g, '"')`, left to right. -/
def unescapeQQ : List Char → List Char
  | [] => []
  | '"' :: '"' :: rest => '"' :: unescapeQQ rest
  | c :: rest => c :: unescapeQQ rest

/-- `findDeps(sc, self)` (app.js 230-254): blank `#"..."` contents, collect
plain identifiers (not equal to `self`, not in `MKW`, not digit-initial, not
followed by `.`), then collect unquoted `#"..."` identifiers (not equal to
`self`), in match order without duplicates. -/
def findDeps (sc : List Char) (self : String) : List String :=
  let scan := findDepsScan sc
  let d1 := (wordTokens scan).foldl
    (fun acc tok =>
      if isIdentStart (tok.1.headD ' ') then
        if (⟨tok.1⟩ : String) ≠ self ∧ (⟨tok.1⟩ : String) ∉ MKW ∧
            ¬ (tok.1.headD ' ').isDigit = true ∧ tok.2 ≠ some '.' then
          insertUnique acc ⟨tok.1⟩
        else acc
      else acc) []
  (hqScan sc).foldl
    (fun acc content =>
      if (⟨unescapeQQ content⟩ : String) ≠ self then
        insertUnique acc ⟨unescapeQQ content⟩
      else acc) d1

/-- Case-insensitive literal match: consumes `pat` (given lowercase) from
the input, returning the rest (`/i` flag). -/
def matchCI : List Char → List Char → Option (List Char)
  | [], l => some l
  | _ :: _, [] => none
  | p :: ps, c :: cs => if c.toLower == p then matchCI ps cs else none

/-- The literal argument of `File.Contents` / `Folder.Contents`:
`#"..."` or `"..."`, with doubled quotes resolved. -/
def extRefLit : List Char → Option (List Char × List Char)
  | '#' :: '"' :: rest => (hqContent rest).map (fun p => (unescapeQQ p.1, p.2))
  | '"' :: rest => (hqContent rest).map (fun p => (unescapeQQ p.1, p.2))
  | _ => none

/-- `[\\\/]`. -/
def isPathSep (c : Char) : Bool := c == '\\' || c == '/'

/-- Path post-processing of `findExternalFileRefs`: truncate at the first
`?` or `#` (`replace(/[?#].*$/,'')` — for paths without newlines, the only
kind that occurs), strip trailing separators, take the last path segment,
falling back to the whole (unprocessed) path when the segment is empty
(`s[s.length-1] || p`). -/
def processExtPath (p : List Char) : List Char :=
  let stripped := p.takeWhile (fun c => !(c == '?' || c == '#'))
  let stripped2 := (stripped.reverse.dropWhile isPathSep).reverse
  let base := (stripped2.reverse.takeWhile (fun c => !(isPathSep c))).reverse
  if base.isEmpty then p else base

/-- One attempted match of
`/(?:File|Folder)\.Contents\s*\(\s*(lit)\s*\)/gi` at the current position:
returns the extracted path and the rest of the input after the match. -/
def matchExtRefAt (l : List Char) : Option (List Char × List Char) := do
  let r1 ← (matchCI "file".data l).orElse (fun _ => matchCI "folder".data l)
  let r2 ← matchCI ".contents".data r1
  match r2.dropWhile isJsSpace with
  | '(' :: r4 =>
    match extRefLit (r4.dropWhile isJsSpace) with
    | some (p, r6) =>
      match r6.dropWhile isJsSpace with
      | ')' :: r8 => some (p, r8)
      | _ => none
    | none => none
  | _ => none

/-- The scan loop of `findExternalFileRefs(code)`: try the pattern at every
position, resume after each match, deduplicate base names in match order. -/
def findExternalFileRefsGo : Nat → List Char → List String → List String
  | 0, _, acc => acc
  | _ + 1, [], acc => acc
  | fuel + 1, c :: rest, acc =>
    match matchExtRefAt (c :: rest) with
    | some (p, after) =>
      let base := processExtPath p
      findExternalFileRefsGo fuel after
        (if base.isEmpty then acc else insertUnique acc ⟨base⟩)
    | none => findExternalFileRefsGo fuel rest acc

/-- `findExternalFileRefs(code)` (app.js 256-269). -/
def findExternalFileRefs (code : List Char) : List String :=
  findExternalFileRefsGo (code.length + 1) code []

/-! ## Module segmentation (parseMCodeFile, app.js 201-226) -/

/-- One anchored attempt of `shared\s+(#"..."|[\w_][\w_]*)\s*=` (the shared
part of both the global pattern and the `^`-anchored `nm` pattern), at the
start of the input: returns the total match length and the raw name token.
The alternation is deterministic: a failed `#"..."` start cannot be a word
run. -/
def matchSharedAt (l : List Char) : Option (Nat × List Char) := do
  let r1 ← matchCI "shared".data l
  let sp := r1.takeWhile isJsSpace
  if sp.isEmpty then none
  else
    let r2 := r1.dropWhile isJsSpace
    let nameAndRest : Option (List Char × List Char) :=
      match r2 with
      | '#' :: '"' :: rest =>
        (hqContent rest).map (fun p => ('#' :: '"' :: (p.1 ++ ['"']), p.2))
      | _ =>
        let run := r2.takeWhile isWordChar
        if run.isEmpty then none else some (run, r2.dropWhile isWordChar)
    match nameAndRest with
    | none => none
    | some (name, r3) =>
      let ws2 := r3.takeWhile isJsSpace
      match r3.dropWhile isJsSpace with
      | '=' :: _ => some (6 + sp.length + name.length + ws2.length + 1, name)
      | _ => none

/-- The global scan for `\bshared\s+(name)\s*=` over the stripped text:
word-boundary check against the previous character, resume after each match
(whose last character is `=`), advance one character on failure. -/
def sharedScanGo : Nat → Option Char → Nat → List Char → List Nat
  | 0, _, _, _ => []
  | _ + 1, _, _, [] => []
  | fuel + 1, prev, idx, c :: rest =>
    let boundaryOk := match prev with
      | none => true
      | some p => !(isWordChar p)
    match (if boundaryOk then matchSharedAt (c :: rest) else none) with
    | some (len, _) =>
      idx :: sharedScanGo fuel (some '=') (idx + len) ((c :: rest).drop len)
    | none => sharedScanGo fuel (some c) (idx + 1) rest

/-- All `shared` boundary positions in the stripped text. -/
def sharedPositions (stripped : List Char) : List Nat :=
  sharedScanGo (stripped.length + 1) none 0 stripped

/-- `String.prototype.indexOf(ch, start)` (`none` = -1). -/
def indexOfCharFrom (l : List Char) (c : Char) (start : Nat) : Option Nat :=
  ((l.drop start).findIdx? (fun x => x == c)).map (fun k => start + k)

/-- The scan of `String.prototype.indexOf(sub)`. -/
def indexOfSubListGo (sub : List Char) : Nat → Nat → List Char → Option Nat
  | 0, _, _ => none
  | fuel + 1, i, l =>
    if sub.isPrefixOf l then some i
    else
      match l with
      | [] => none
      | _ :: rest => indexOfSubListGo sub fuel (i + 1) rest

/-- `String.prototype.indexOf(sub)` (`none` = -1). -/
def indexOfSubList (l sub : List Char) : Option Nat :=
  indexOfSubListGo sub (l.length + 1) 0 l

/-- `String.prototype.lastIndexOf(ch)` (`none` = -1). -/
def lastIndexOfChar (l : List Char) (c : Char) : Option Nat :=
  (l.reverse.findIdx? (fun x => x == c)).map (fun k => l.length - 1 - k)

/-- One iteration of `parseMCodeFile`'s boundary loop: chunk `[s, e)` of the
original code and of the stripped text, the anchored `nm` re-match on the
chunk, `#"..."` name unquoting, `eq = chunk.indexOf('=', indexOf(name) +
name.length)` (the JavaScript -1 cases fold to the corresponding index
arithmetic), the last `;` of the stripped body, and the query record with
its dependencies and external references. -/
def mkSharedQuery (fn : String) (code stripped : List Char) (s e : Nat) :
    Option Query :=
  let chunk := (code.drop s).take (e - s)
  let sc := (stripped.drop s).take (e - s)
  match matchSharedAt chunk with
  | none => none
  | some (_, nameTok) =>
    let name : String := match nameTok with
      | '#' :: '"' :: restTok => ⟨unescapeQQ restTok.dropLast⟩
      | _ => ⟨nameTok⟩
    let start := match indexOfSubList chunk nameTok with
      | some k => k + nameTok.length
      | none => nameTok.length - 1
    let eqPlus1 := match indexOfCharFrom chunk '=' start with
      | some k => k + 1
      | none => 0
    let sb := sc.drop eqPlus1
    let qc := match lastIndexOfChar sb ';' with
      | some ls => trimJs ((chunk.drop eqPlus1).take ls)
      | none => trimJs (chunk.drop eqPlus1)
    some ⟨name, ⟨qc⟩, fn, findDeps (stripCS qc) name, findExternalFileRefs qc⟩

/-- The boundary loop: each position's chunk ends at the next position (or
the end of the code); `nm` mismatches are skipped (`continue`). -/
def sharedChunks (fn : String) (code stripped : List Char) : List Nat → List Query
  | [] => []
  | s :: rest =>
    let e := match rest with
      | [] => code.length
      | s2 :: _ => s2
    match mkSharedQuery fn code stripped s e with
    | some q => q :: sharedChunks fn code stripped rest
    | none => sharedChunks fn code stripped rest

/-- `/\b<w>\b/i.test(text)`: some maximal word run equals `w`
case-insensitively. -/
def hasWordCI (l : List Char) (w : List Char) : Bool :=
  (wordTokens l).any (fun tok => tok.1.map Char.toLower == w)

/-- `.replace(/^﻿/, '')`. -/
def stripBOM (cs : List Char) : List Char :=
  match cs with
  | '﻿' :: rest => rest
  | _ => cs

/-- `parseMCodeFile(mCode, fn)` (app.js 201-226): strip the BOM, strip
comments/strings, segment at `shared` boundaries; with no boundary and both
`let` and `in` present, the whole text is the single anonymous query
`Query1` (whose dependencies come from the stripped text and whose code and
external references come from the original `mCode`). -/
def parseMCodeFile (mCode fn : String) : List Query :=
  let code := stripBOM mCode.data
  let stripped := stripCS code
  let qs := sharedChunks fn code stripped (sharedPositions stripped)
  if qs.isEmpty && hasWordCI stripped "let".data && hasWordCI stripped "in".data then
    [⟨"Query1", ⟨trimJs mCode.data⟩, fn, findDeps stripped "Query1",
      findExternalFileRefs mCode.data⟩]
  else qs

/-! ### Claims C5 and C8 -/

theorem insertUnique_not_mem (acc : List String) (x id : String)
    (h1 : x ∉ acc) (h2 : x ≠ id) : x ∉ insertUnique acc id := by
  unfold insertUnique
  split
  · exact h1
  · simp [h1, h2]

theorem foldl_preserves {α : Type} (P : List String → Prop)
    (step : List String → α → List String)
    (hstep : ∀ acc x, P acc → P (step acc x)) :
    ∀ (l : List α) (acc : List String), P acc → P (l.foldl step acc) := by
  intro l
  induction l with
  | nil => intro acc h; simpa using h
  | cons x rest ih =>
    intro acc h
    rw [List.foldl_cons]
    exact ih _ (hstep acc x h)

theorem findDeps_self_not_mem (sc : List Char) (self : String) :
    self ∉ findDeps sc self := by
  unfold findDeps
  refine foldl_preserves (fun acc => self ∉ acc) _ ?_ _ _
    (foldl_preserves (fun acc => self ∉ acc) _ ?_ _ [] (by simp))
  · intro acc content h
    dsimp only
    split
    · rename_i hcond
      exact insertUnique_not_mem acc self _ h (fun he => hcond he.symm)
    · exact h
  · intro acc tok h
    dsimp only
    split
    · split
      · rename_i hcond
        exact insertUnique_not_mem acc self _ h (fun he => hcond.1 he.symm)
      · exact h
    · exact h

theorem mkSharedQuery_shape (fn : String) (code stripped : List Char)
    (s e : Nat) (q : Query) (h : mkSharedQuery fn code stripped s e = some q) :
    ∃ sc, q.dependencies = findDeps sc q.name := by
  simp only [mkSharedQuery] at h
  rcases hm : matchSharedAt ((code.drop s).take (e - s)) with _ | ⟨len, nameTok⟩
  · rw [hm] at h
    simp at h
  · rw [hm] at h
    dsimp only at h
    simp only [Option.some.injEq] at h
    subst h
    exact ⟨_, rfl⟩

theorem sharedChunks_mem (fn : String) (code stripped : List Char) :
    ∀ (ps : List Nat) (q : Query), q ∈ sharedChunks fn code stripped ps →
      ∃ s e, mkSharedQuery fn code stripped s e = some q := by
  intro ps
  induction ps with
  | nil => intro q h; simp [sharedChunks] at h
  | cons s rest ih =>
    intro q h
    simp only [sharedChunks] at h
    rcases rest with _ | ⟨s2, tail⟩ <;> dsimp only at h
    · rcases hm : mkSharedQuery fn code stripped s code.length with _ | q2 <;>
        rw [hm] at h <;> dsimp only at h
      · exact ih q h
      · rcases List.mem_cons.mp h with h | h
        · exact ⟨s, _, h ▸ hm⟩
        · exact ih q h
    · rcases hm : mkSharedQuery fn code stripped s s2 with _ | q2 <;>
        rw [hm] at h <;> dsimp only at h
      · exact ih q h
      · rcases List.mem_cons.mp h with h | h
        · exact ⟨s, _, h ▸ hm⟩
        · exact ih q h

/-- C8: dependency extraction is reflexive-free — `findDeps` never returns
`self` (every insertion is guarded by a comparison against `self`, the
doubled-hash-quoted form compared after unquoting), and consequently every
query produced by `parseMCodeFile` (shared segmentation and the anonymous
`let`/`in` fallback — the DataModelSchema and DataModel paths compute their
dependency lists through the same `findDeps(stripCS(expr), name)` call)
never lists its own name among its dependencies. -/
theorem findDeps_reflexive_free_c8 :
    (∀ (sc : List Char) (self : String), self ∉ findDeps sc self) ∧
    (∀ (mCode fn : String), ∀ q ∈ parseMCodeFile mCode fn,
      q.name ∉ q.dependencies) := by
  refine ⟨findDeps_self_not_mem, ?_⟩
  intro mCode fn q hq
  rw [parseMCodeFile] at hq
  dsimp only at hq
  split at hq
  · simp only [List.mem_singleton] at hq
    subst hq
    exact findDeps_self_not_mem _ _
  · obtain ⟨s, e, hm⟩ := sharedChunks_mem fn _ _ _ q hq
    obtain ⟨sc, hdeps⟩ := mkSharedQuery_shape fn _ _ s e q hm
    rw [hdeps]
    exact findDeps_self_not_mem sc q.name

/-- The single-query module of the C5 scenario. -/
def c5Input : String :=
  "shared Orders = let Source = Sql.Database(\"s\",\"d\") in Source;"

/-- What `parseMCodeFile` actually produces for the C5 scenario. -/
def ordersQuery : Query :=
  ⟨"Orders", "let Source = Sql.Database(\"s\",\"d\") in Source", "f",
   ["Database"], []⟩

set_option maxRecDepth 40000 in
/-- C5 counterexample: the single query's dependencies list is
`["Database"]`, not `[]` — the identifier filter checks only the character
AFTER a token for property access, so the method name following `Sql.` is
captured (`Sql` itself is excluded by the trailing-dot check, and `Source`,
`let`, `in` are in the keyword set, but `Database` is not). -/
theorem parseMCodeFile_orders_counterexample_c5 :
    (parseMCodeFile c5Input "f").map Query.dependencies = [["Database"]] ∧
    [["Database"]] ≠ [([] : List String)] :=
  ⟨by decide, by decide⟩

set_option maxRecDepth 40000 in
/-- C5 (amended): the module yields exactly one query named "Orders" with
code `let Source = Sql.Database("s","d") in Source`, dependencies
`["Database"]`, and no external file references. -/
theorem parseMCodeFile_orders_c5 :
    parseMCodeFile c5Input "f" = [ordersQuery] := by decide

set_option maxRecDepth 40000 in
theorem findDeps_reflexive_free_c8_witness :
    ordersQuery.name ∉ ordersQuery.dependencies :=
  findDeps_reflexive_free_c8.2 c5Input "f" ordersQuery (by decide)

end PQX
